import Mathlib

/-!
# Verification of the `gocrash` worker-pool core

A shallow embedding, in Lean 4, of the `gocrash` command (src/main.rs): a
program that repeatedly runs the Go test suite in parallel worker threads,
each against a fresh ZFS clone of a source snapshot, until a failure is
observed or a per-worker run-count limit is reached.

The embedding models:
* `run_command` — the external process runner (exit-status classification
  and error-message construction);
* `gocrash_worker_run_one` — one attempt: clone, mountpoint lookup, output
  sinks, test execution, conditional destroy — as a trace of issued actions;
* `gocrash_worker` — the worker loop, as a fuel-indexed function (for the
  single-worker functional claims) and as a labelled small-step transition
  system over all workers and the shared stop flag (for the concurrency
  claims);
* `gocrash` / `main` — snapshot-name validation, worker-result aggregation
  and the process exit code.

External effects (process spawning, ZFS, the filesystem) are supplied as
explicit environment values recording what each external call would return.
-/

namespace Gocrash

/-! ## External process runner (`run_command`, `command_label`) -/

/-- Termination status of a spawned process: either a normal exit with a
numeric code, or death by a signal (`ExitStatus::code` vs
`ExitStatus::signal` on Unix). -/
inductive ExitStatus where
  | code (c : Int)
  | signal (s : Int)
deriving DecidableEq, Repr

/-- Captured output of a process that ran to completion
(`std::process::Output`): its termination status and the text decoded from
its captured stdout and stderr bytes. -/
structure Output where
  status : ExitStatus
  stdout : String
  stderr : String
deriving DecidableEq, Repr

/-- Result of asking the OS to run a command: the spawn itself can fail
(binary missing, permission denied), or the process runs and yields an
`Output`. -/
inductive SpawnResult where
  | spawnError (msg : String)
  | ran (out : Output)
deriving DecidableEq, Repr

/-- `ExitStatus::success()`: true exactly for a normal exit with code 0. -/
def status_success : ExitStatus → Bool
  | .code 0 => true
  | _ => false

/-- The termination-reason text built at src/main.rs:284-292: the numeric
exit code when the process exited, the signal number when it was killed. -/
def result_summary : ExitStatus → String
  | .code c => "exited with code " ++ toString c
  | .signal s => "terminated by signal " ++ toString s

/-- One character of Rust's `{:?}` (Debug) rendering of a string: the
escapes for quote, backslash and the common control characters. -/
def escape_debug_char (c : Char) : String :=
  if c = '"' then "\\\""
  else if c = '\\' then "\\\\"
  else if c = '\n' then "\\n"
  else if c = '\t' then "\\t"
  else if c = '\r' then "\\r"
  else String.singleton c

/-- Rust's `format!("{:?}", s)` on a string: the text escaped and wrapped in
double quotes. -/
def quote_debug (s : String) : String :=
  "\"" ++ String.join (s.data.map escape_debug_char) ++ "\""

/-- src/main.rs:263-269 `command_label`: the program name and each argument,
each Debug-quoted, joined by single spaces. -/
def command_label (prog : String) (args : List String) : String :=
  String.intercalate " " ((prog :: args).map quote_debug)

/-- src/main.rs:275-310 `run_command`: returns the decoded stdout when the
process exited with status 0; otherwise an error string holding the command
label, the termination reason, and the captured stderr and stdout each
appended only when non-empty. A spawn failure is reported through the same
error channel with a `failed to exec` context. -/
def run_command (prog : String) (args : List String) (r : SpawnResult) :
    Except String String :=
  let label := command_label prog args
  match r with
  | .spawnError msg => .error ("failed to exec " ++ label ++ ": " ++ msg)
  | .ran result =>
    if status_success result.status then
      .ok result.stdout
    else
      let output := "command failed: " ++ label ++ ": " ++ result_summary result.status
      let output :=
        if result.stderr.length > 0 then
          output ++ "\nstderr:\n" ++ result.stderr ++ "\n"
        else output
      let output :=
        if result.stdout.length > 0 then
          output ++ "\nstdout:\n" ++ result.stdout ++ "\n"
        else output
      .error output

/-- `t` occurs as a contiguous substring of `s`. -/
def strContains (s t : String) : Prop :=
  ∃ pre post : String, s = pre ++ t ++ post

/-! ## One attempt (`gocrash_worker_run_one`)

One attempt issues a sequence of external actions: process executions and
output-sink creations.  The environment `RunOneEnv` records what each
external call would return; the function returns the list of actions it
actually issued, in order, together with its result. -/

/-- An externally visible action taken during one attempt. -/
inductive Action where
  /-- spawn a process with the given program and arguments -/
  | exec (prog : String) (args : List String)
  /-- create a fresh output sink (file) at the given path;
      creation fails if the file already exists (`create_new(true)`) -/
  | openSink (path : String)
  /-- launch worker thread number `i` (src/main.rs:110) -/
  | spawnWorker (i : Nat)
deriving DecidableEq, Repr

/-- What the external world answers to each call one attempt can make, in
program order: the `zfs clone`, the `zfs list` mountpoint lookup, the two
sink creations, the test command (`bash ./all.bash`), and the `zfs destroy`. -/
structure RunOneEnv where
  clone : SpawnResult
  list : SpawnResult
  open_stdout : Except String Unit
  open_stderr : Except String Unit
  test : SpawnResult
  destroy : SpawnResult
deriving Repr

/-- src/main.rs:196 — the per-attempt key `thread-{which_thread}-run-{which_run}`. -/
def test_run_key (which_thread which_run : Nat) : String :=
  "thread-" ++ Nat.repr which_thread ++ "-run-" ++ Nat.repr which_run

/-- src/main.rs:197-198 — the per-attempt dataset name,
`{gocrash_dataset}/{test_run_key}`. -/
def test_run_dataset (gocrash_dataset : String) (which_thread which_run : Nat) : String :=
  gocrash_dataset ++ "/" ++ test_run_key which_thread which_run

/-- src/main.rs:190-260 `gocrash_worker_run_one`: clone the snapshot to a
fresh per-attempt dataset, look up its mountpoint, create the two output
sinks, run the test command, and destroy the dataset afterwards unless
`keep_success` is set.  Every `?` in the source is an early `.error` return
here; the returned list is the actions issued before (and including) the
point of return. -/
def gocrash_worker_run_one (keep_success : Bool)
    (gocrash_dataset source_snapshot : String)
    (which_thread which_run : Nat) (env : RunOneEnv) :
    List Action × Except String Unit :=
  let ds := test_run_dataset gocrash_dataset which_thread which_run
  let cloneAct := Action.exec "pfexec" ["zfs", "clone", source_snapshot, ds]
  match run_command "pfexec" ["zfs", "clone", source_snapshot, ds] env.clone with
  | .error e => ([cloneAct], .error e)
  | .ok _ =>
    let listAct := Action.exec "zfs" ["list", "-H", "-omountpoint", ds]
    match run_command "zfs" ["list", "-H", "-omountpoint", ds] env.list with
    | .error e => ([cloneAct, listAct], .error e)
    | .ok mountpoint_output =>
      let mountpoint := mountpoint_output.trim
      let stdout_file_path := mountpoint ++ "/test_run_stdout"
      let stderr_file_path := mountpoint ++ "/test_run_stderr"
      let acts := [cloneAct, listAct, Action.openSink stdout_file_path]
      match env.open_stdout with
      | .error e => (acts, .error e)
      | .ok _ =>
        let acts := acts ++ [Action.openSink stderr_file_path]
        match env.open_stderr with
        | .error e => (acts, .error e)
        | .ok _ =>
          let acts := acts ++ [Action.exec "bash" ["./all.bash"]]
          match run_command "bash" ["./all.bash"] env.test with
          | .error e => (acts, .error e)
          | .ok _ =>
            if keep_success then (acts, .ok ())
            else
              let acts := acts ++ [Action.exec "pfexec" ["zfs", "destroy", ds]]
              match run_command "pfexec" ["zfs", "destroy", ds] env.destroy with
              | .error e => (acts, .error e)
              | .ok _ => (acts, .ok ())

/-! ## The worker loop (`gocrash_worker`), single-worker functional view -/

instance : DecidableEq (Except String Unit) := fun a b =>
  match a, b with
  | .ok _, .ok _ => .isTrue rfl
  | .error e, .error f =>
    if h : e = f then .isTrue (h ▸ rfl)
    else .isFalse (fun heq => h (Except.error.inj heq))
  | .ok _, .error _ => .isFalse (fun heq => Except.noConfusion heq)
  | .error _, .ok _ => .isFalse (fun heq => Except.noConfusion heq)

/-- src/main.rs:159-164 `WorkerResult`: the number of completed test-suite
runs and the result of the last one. -/
structure WorkerResult where
  ntries : Nat
  result : Except String Unit
deriving DecidableEq, Repr

/-- src/main.rs:167-187 `gocrash_worker`, viewed by a single worker whose
loop-top load of the shared `stopping` flag always returns `false` (no other
thread stores to it; the worker itself returns immediately after its own
store).  `run_one` gives the result of attempt number `which_run`; `fuel`
bounds the number of loop iterations, `none` meaning the loop was still
running after `fuel` iterations. -/
def gocrash_worker (stop_after : Option Nat) (run_one : Nat → Except String Unit) :
    Nat → Nat → Option WorkerResult
  | 0, _ => none
  | fuel + 1, ntries =>
    match run_one ntries with
    | .error e => some ⟨ntries, .error e⟩
    | .ok _ =>
      let ntries := ntries + 1
      match stop_after with
      | some k =>
        if k ≤ ntries then some ⟨ntries, .ok ()⟩
        else gocrash_worker stop_after run_one fuel ntries
      | none => gocrash_worker stop_after run_one fuel ntries

/-! ## Coordinator (`gocrash`, `main`) -/

/-- What joining one worker thread yields: either the thread panicked, or it
finished with a `WorkerResult` (src/main.rs:116-118). -/
inductive JoinResult where
  | panicked
  | finished (r : WorkerResult)
deriving DecidableEq, Repr

/-- src/main.rs:114-137 — the result-collection loop: a panicked join aborts
immediately with an error (the `?` at line 118); otherwise each worker error
increments `nerrors`, and the final result is `Ok` exactly when `nerrors`
stayed 0. -/
def gocrash_collect : List JoinResult → Nat → Except String Unit
  | [], nerrors => if nerrors = 0 then .ok () else .error "test failed"
  | .panicked :: _, _ => .error "thread panicked"
  | .finished r :: rest, nerrors =>
    gocrash_collect rest
      (match r.result with
       | .ok _ => nerrors
       | .error _ => nerrors + 1)

/-- Rust `str::split_once` on a list of characters: the parts before and
after the first occurrence of `c`, or `none` when `c` does not occur. -/
def splitOnceList (c : Char) : List Char → Option (List Char × List Char)
  | [] => none
  | x :: xs =>
    if x = c then some ([], xs)
    else (splitOnceList c xs).map (fun p => (x :: p.1, p.2))

/-- Rust `str::split_once` on strings. -/
def split_once (s : String) (c : Char) : Option (String × String) :=
  (splitOnceList c s.data).map (fun p => (⟨p.1⟩, ⟨p.2⟩))

/-- src/main.rs:49-138 `gocrash`, with external effects supplied explicitly:
`create` is what `pfexec zfs create` would return, and `joins` what joining
the worker threads would yield.  Returns the actions the coordinator itself
issues before and including launching the workers (the `zfs create` and one
`spawnWorker i` marker per worker), together with the overall result.  When
the snapshot name has no `@`, it fails before issuing any action. -/
def gocrash (concurrency : Nat) (snapshot : String) (timestamp_millis : Nat)
    (create : SpawnResult) (joins : List JoinResult) :
    List Action × Except String Unit :=
  match split_once snapshot '@' with
  | none => ([], .error "bad syntax for snapshot name (missing '@')")
  | some (dataset_name, _) =>
    let gocrash_dataset := dataset_name ++ "/gocrash-" ++ Nat.repr timestamp_millis
    let createAct := Action.exec "pfexec" ["zfs", "create", gocrash_dataset]
    match run_command "pfexec" ["zfs", "create", gocrash_dataset] create with
    | .error e => ([createAct], .error e)
    | .ok _ =>
      (createAct :: (List.range concurrency).map Action.spawnWorker,
       gocrash_collect joins 0)

/-- src/main.rs:20-26 `main`: exit code 1 when `gocrash` returned an error,
0 otherwise. -/
def main_exit_code (r : Except String Unit) : Nat :=
  match r with
  | .ok _ => 0
  | .error _ => 1

/-! ## The worker pool as a labelled transition system

For the concurrency claims the worker loop (src/main.rs:167-187) is modelled
per worker as a three-phase state machine over the shared `stopping` flag:
at the top of the loop the worker atomically loads the flag (line 169);
while it is inside `gocrash_worker_run_one` other workers may store to the
flag; when the attempt errors the worker atomically stores `true` (line 172)
and finishes.  Successive flag accesses are `SeqCst`, so modelling each load
and store as one interleaved step is faithful. -/

/-- The control state of one worker thread: at the loop-top flag check with
`ntries` completed runs, inside attempt number `ntries`, or returned. -/
inductive WStatus where
  | atTop (ntries : Nat)
  | inAttempt (ntries : Nat)
  | done (r : WorkerResult)
deriving DecidableEq, Repr

/-- The shared state of the pool: the `stopping` flag and every worker's
control state, indexed by worker id `ι`. -/
structure SysState (ι : Type) where
  stopping : Bool
  workers : ι → WStatus

/-- What one interleaved step of the pool is: worker `i` observes the flag
true at loop-top and returns, or observes it false and begins an attempt, or
finishes its current attempt successfully or with an error. -/
inductive Label (ι : Type) where
  | observeStop (i : ι)
  | beginAttempt (i : ι)
  | finishOk (i : ι)
  | finishErr (i : ι) (e : String)
deriving DecidableEq

/-- src/main.rs:179-183 — whether the per-worker run limit (if configured)
has been reached after `ntries` completed runs. -/
def limit_reached (stop_after : Option Nat) (ntries : Nat) : Bool :=
  match stop_after with
  | some k => decide (k ≤ ntries)
  | none => false

/-- One interleaved step of the worker pool.  `run_one i t` is the result of
worker `i`'s attempt number `t` (determined by the per-attempt clone and the
external command, not by scheduling).  Each constructor is one atomic access
to the shared flag from src/main.rs:167-187. -/
inductive Step [DecidableEq ι] (stop_after : Option Nat)
    (run_one : ι → Nat → Except String Unit) :
    SysState ι → Label ι → SysState ι → Prop where
  /-- line 169: the loop-top load returns `true`; the worker exits the loop
      and returns `Ok` with its current count (line 186). -/
  | observeStop {s : SysState ι} {i : ι} {t : Nat}
      (hw : s.workers i = .atTop t) (hs : s.stopping = true) :
      Step stop_after run_one s (.observeStop i)
        ⟨s.stopping, Function.update s.workers i (.done ⟨t, .ok ()⟩)⟩
  /-- line 169: the loop-top load returns `false`; the worker enters
      `gocrash_worker_run_one` (line 171). -/
  | beginAttempt {s : SysState ι} {i : ι} {t : Nat}
      (hw : s.workers i = .atTop t) (hs : s.stopping = false) :
      Step stop_after run_one s (.beginAttempt i)
        ⟨s.stopping, Function.update s.workers i (.inAttempt t)⟩
  /-- lines 176-183: the attempt succeeded; the count is incremented and the
      worker either breaks at the limit (returning `Ok`) or loops. -/
  | finishOk {s : SysState ι} {i : ι} {t : Nat}
      (hw : s.workers i = .inAttempt t) (hr : run_one i t = .ok ()) :
      Step stop_after run_one s (.finishOk i)
        ⟨s.stopping,
         Function.update s.workers i
           (if limit_reached stop_after (t + 1) then .done ⟨t + 1, .ok ()⟩
            else .atTop (t + 1))⟩
  /-- lines 171-174: the attempt failed; the worker stores `true` to the
      flag and returns the error with its current count. -/
  | finishErr {s : SysState ι} {i : ι} {t : Nat} {e : String}
      (hw : s.workers i = .inAttempt t) (hr : run_one i t = .error e) :
      Step stop_after run_one s (.finishErr i e)
        ⟨true, Function.update s.workers i (.done ⟨t, .error e⟩)⟩

/-- A finite execution of the pool from `s`: the list records each step's
label and the state it leads to. -/
inductive Trace [DecidableEq ι] (stop_after : Option Nat)
    (run_one : ι → Nat → Except String Unit) :
    SysState ι → List (Label ι × SysState ι) → Prop where
  | nil {s : SysState ι} : Trace stop_after run_one s []
  | cons {s s₁ : SysState ι} {l : Label ι} {tr : List (Label ι × SysState ι)}
      (hstep : Step stop_after run_one s l s₁)
      (htr : Trace stop_after run_one s₁ tr) :
      Trace stop_after run_one s ((l, s₁) :: tr)

/-- Decimal read-back of a digit string: the number whose decimal digits
these characters are (used to invert `Nat.repr`). -/
def decodeDigits (cs : List Char) : Nat :=
  cs.foldl (fun a c => a * 10 + (c.toNat - Char.toNat '0')) 0

/-! ## Concrete scenario environments -/

/-- An attempt environment in which every external call succeeds: the clone
and destroy exit 0, the mountpoint lookup prints `/mnt/test`, both sinks
open, and the test command exits 0. -/
def env_all_ok : RunOneEnv :=
  ⟨.ran ⟨.code 0, "", ""⟩, .ran ⟨.code 0, "/mnt/test\n", ""⟩,
   .ok (), .ok (), .ran ⟨.code 0, "", ""⟩, .ran ⟨.code 0, "", ""⟩⟩

/-- Like `env_all_ok`, but the test command exits with code 1. -/
def env_test_exit1 : RunOneEnv :=
  ⟨env_all_ok.clone, env_all_ok.list, env_all_ok.open_stdout,
   env_all_ok.open_stderr, .ran ⟨.code 1, "", ""⟩, env_all_ok.destroy⟩

/-- Per-attempt environments for one worker: attempts 0 and 1 succeed, and
attempt 2 (the worker's third) fails with exit code 1. -/
def envs_third_fails : Nat → RunOneEnv :=
  fun t => if t = 2 then env_test_exit1 else env_all_ok

/-- The per-attempt results the worker sees in the `envs_third_fails`
scenario (worker index 0, retention off). -/
def run_one_third_fails : Nat → Except String Unit :=
  fun t =>
    (gocrash_worker_run_one false "tank/gocrash-0" "tank/go@base" 0 t
      (envs_third_fails t)).2

/-! ## Helper lemmas -/

/-- `ExitStatus::success()` holds exactly for exit code 0. -/
lemma status_success_true_iff (st : ExitStatus) :
    status_success st = true ↔ st = .code 0 := by
  cases st with
  | code c =>
    by_cases hc : c = 0
    · subst hc; simp [status_success]
    · constructor
      · intro h
        exfalso
        have : status_success (.code c) = false := by
          simp only [status_success]
          split
          · rename_i heq
            exact absurd (by injection heq) hc
          · rfl
        rw [this] at h
        exact Bool.noConfusion h
      · intro h
        exact absurd (by injection h) hc
  | signal s => simp [status_success]

/-- Any string occurs in itself followed by anything. -/
lemma strContains_suffix (s t : String) : strContains (s ++ t) t :=
  ⟨s, "", by simp⟩

/-- Occurrence is preserved by appending on the right. -/
lemma strContains_append_right (s t u : String) (h : strContains s u) :
    strContains (s ++ t) u := by
  obtain ⟨p, q, rfl⟩ := h
  exact ⟨p, q ++ t, by simp [String.append_assoc]⟩

/-- Occurrence is preserved by appending on the left. -/
lemma strContains_append_left (s t u : String) (h : strContains t u) :
    strContains (s ++ t) u := by
  obtain ⟨p, q, rfl⟩ := h
  exact ⟨s ++ p, q, by simp [String.append_assoc]⟩

/-- A process that exited with code 0 makes `run_command` return its stdout. -/
lemma run_command_ok_of_code_zero (prog : String) (args : List String) (o : Output)
    (h : o.status = .code 0) : run_command prog args (.ran o) = .ok o.stdout := by
  simp [run_command, h, status_success]

/-- The collection loop yields `Ok` exactly when it started with no errors
counted and every join finished with a successful `WorkerResult`. -/
lemma gocrash_collect_ok_iff : ∀ (joins : List JoinResult) (n : Nat),
    gocrash_collect joins n = .ok () ↔
      (n = 0 ∧ ∀ j ∈ joins, ∃ r, j = .finished r ∧ r.result = .ok ()) := by
  intro joins
  induction joins with
  | nil =>
    intro n
    constructor
    · intro h
      by_cases hn : n = 0
      · exact ⟨hn, by simp⟩
      · simp [gocrash_collect, hn] at h
    · intro h
      simp [gocrash_collect, h.1]
  | cons j rest ih =>
    intro n
    cases j with
    | panicked =>
      simp only [gocrash_collect]
      constructor
      · intro h; exact absurd h (by simp)
      · intro h
        obtain ⟨r, hr, -⟩ := h.2 .panicked (by simp)
        exact JoinResult.noConfusion hr
    | finished r =>
      match hr : r.result with
      | .ok _ =>
        simp only [gocrash_collect, hr]
        rw [ih n]
        constructor
        · intro ⟨hn, hall⟩
          refine ⟨hn, ?_⟩
          intro j hj
          rcases List.mem_cons.mp hj with rfl | hj
          · exact ⟨r, rfl, hr⟩
          · exact hall j hj
        · intro ⟨hn, hall⟩
          exact ⟨hn, fun j hj => hall j (List.mem_cons_of_mem _ hj)⟩
      | .error e =>
        simp only [gocrash_collect, hr]
        rw [ih (n + 1)]
        constructor
        · rintro ⟨hn, -⟩; exact absurd hn (by omega)
        · rintro ⟨-, hall⟩
          obtain ⟨r', hr', hok⟩ := hall (.finished r) (by simp)
          have : r = r' := JoinResult.finished.inj hr'
          rw [← this, hr] at hok
          exact Except.noConfusion hok

/-- `splitOnceList` finds nothing exactly when the character is absent. -/
lemma splitOnceList_eq_none_iff (c : Char) : ∀ (cs : List Char),
    splitOnceList c cs = none ↔ c ∉ cs := by
  intro cs
  induction cs with
  | nil => simp [splitOnceList]
  | cons x xs ih =>
    by_cases hx : x = c
    · simp [splitOnceList, hx]
    · simp only [splitOnceList, if_neg hx, List.mem_cons]
      have hmap : Option.map (fun p : List Char × List Char => (x :: p.1, p.2))
          (splitOnceList c xs) = none ↔ splitOnceList c xs = none := by
        cases splitOnceList c xs <;> simp
      rw [hmap, ih]
      constructor
      · intro h hmem
        rcases hmem with h1 | h2
        · exact hx h1.symm
        · exact h h2
      · intro h hmem
        exact h (Or.inr hmem)

/-- When every attempt succeeds and the limit `k` exceeds the current count
`t`, the worker loop runs on to exactly `k` completed runs and returns
success (given at least `k - t` iterations of fuel). -/
lemma gocrash_worker_all_ok (k : Nat) (run_one : Nat → Except String Unit)
    (hok : ∀ t, run_one t = .ok ()) :
    ∀ (fuel t : Nat), t < k → k ≤ t + fuel →
      gocrash_worker (some k) run_one fuel t = some ⟨k, .ok ()⟩ := by
  intro fuel
  induction fuel with
  | zero => intro t h1 h2; omega
  | succ fuel ih =>
    intro t h1 h2
    simp only [gocrash_worker, hok t]
    by_cases hkt : k ≤ t + 1
    · have hk : k = t + 1 := by omega
      simp [hkt, hk]
    · simp only [if_neg hkt]
      exact ih (t + 1) (by omega) (by omega)

/-! ## Claims -/

/-- C9: with `--stop-after 0`, a worker whose first attempt succeeds still
performs exactly one attempt rather than zero — the limit is only checked
after an attempt completes and the counter increments (src/main.rs:176-183)
— and reports `ntries = 1` with a success outcome. -/
theorem stop_after_zero_still_runs_once (run_one : Nat → Except String Unit)
    (fuel : Nat) (h : run_one 0 = .ok ()) :
    gocrash_worker (some 0) run_one (fuel + 1) 0 = some ⟨1, .ok ()⟩ := by
  simp [gocrash_worker, h]

theorem stop_after_zero_still_runs_once_witness :
    gocrash_worker (some 0) (fun _ => .ok ()) 1 0 = some ⟨1, .ok ()⟩ :=
  stop_after_zero_still_runs_once (fun _ => .ok ()) 0 rfl

/-- C4 (counterexample): the claim fails at limit `k = 0`: with
`--stop-after 0` and an always-succeeding test, the worker performs 1
attempt, not `k = 0`. -/
theorem stop_after_exact_counterexample :
    gocrash_worker (some 0) (fun _ => .ok ()) 1 0 ≠ some ⟨0, .ok ()⟩ ∧
    gocrash_worker (some 0) (fun _ => .ok ()) 5 0 = some ⟨1, .ok ()⟩ := by
  constructor
  · decide
  · decide

/-- C4 (amended): for every configured limit `k ≥ 1`, if no attempt of any
worker fails then every worker performs exactly `k` attempts (`ntries = k`,
result `Ok`), and the coordinator's overall result over any collection of
such worker results is success (process exit code 0). -/
theorem stop_after_k_exact (k : Nat) (hk : 1 ≤ k)
    (run_one : Nat → Except String Unit) (hok : ∀ t, run_one t = .ok ())
    (fuel : Nat) (hfuel : k ≤ fuel) (nworkers : Nat) :
    gocrash_worker (some k) run_one fuel 0 = some ⟨k, .ok ()⟩ ∧
    main_exit_code
      (gocrash_collect (List.replicate nworkers (.finished ⟨k, .ok ()⟩)) 0) = 0 := by
  constructor
  · exact gocrash_worker_all_ok k run_one hok fuel 0 (by omega) (by omega)
  · have : gocrash_collect (List.replicate nworkers (.finished ⟨k, .ok ()⟩)) 0 = .ok () := by
      rw [gocrash_collect_ok_iff]
      refine ⟨rfl, ?_⟩
      intro j hj
      have := List.eq_of_mem_replicate hj
      exact ⟨⟨k, .ok ()⟩, this, rfl⟩
    rw [this]
    rfl

theorem stop_after_k_exact_witness :
    gocrash_worker (some 2) (fun _ => .ok ()) 2 0 = some ⟨2, .ok ()⟩ ∧
    main_exit_code
      (gocrash_collect (List.replicate 3 (.finished ⟨2, .ok ()⟩)) 0) = 0 :=
  stop_after_k_exact 2 (by decide) (fun _ => .ok ()) (fun _ => rfl) 2 (by decide) 3

/-- C5: once setup succeeds (well-formed snapshot name, working dataset
created), the process exit code is 0 iff every worker's join yielded a
successful `WorkerResult`; any single worker failure — a test failure or a
panicked thread — forces exit code 1 even if all other workers succeeded. -/
theorem exit_code_zero_iff_all_workers_ok (concurrency : Nat) (snapshot : String)
    (ts : Nat) (o : Output) (joins : List JoinResult) (dn rest : String)
    (hsplit : split_once snapshot '@' = some (dn, rest))
    (hcreate : o.status = .code 0) :
    main_exit_code (gocrash concurrency snapshot ts (.ran o) joins).2 = 0 ↔
      ∀ j ∈ joins, ∃ r, j = .finished r ∧ r.result = .ok () := by
  simp only [gocrash, hsplit, run_command_ok_of_code_zero _ _ o hcreate]
  constructor
  · intro h
    have hok : gocrash_collect joins 0 = .ok () := by
      match hc : gocrash_collect joins 0 with
      | .ok _ => rfl
      | .error e => rw [hc] at h; exact absurd h (by simp [main_exit_code])
    exact ((gocrash_collect_ok_iff joins 0).mp hok).2
  · intro h
    rw [(gocrash_collect_ok_iff joins 0).mpr ⟨rfl, h⟩]
    rfl

theorem exit_code_zero_iff_all_workers_ok_witness :
    main_exit_code (gocrash 2 "tank/go@base" 5 (.ran ⟨.code 0, "", ""⟩)
        [.finished ⟨3, .ok ()⟩, .finished ⟨2, .error "test failed"⟩]).2 = 0 ↔
      ∀ j ∈ ([.finished ⟨3, .ok ()⟩,
              .finished ⟨2, .error "test failed"⟩] : List JoinResult),
        ∃ r, j = .finished r ∧ r.result = .ok () :=
  exit_code_zero_iff_all_workers_ok 2 "tank/go@base" 5 ⟨.code 0, "", ""⟩
    [.finished ⟨3, .ok ()⟩, .finished ⟨2, .error "test failed"⟩]
    "tank/go" "base" rfl rfl

/-- C8: when the snapshot argument contains no `@`, `gocrash` returns the
descriptive error from src/main.rs:53 having issued no external action at
all — in particular no `zfs create` of the working dataset and no worker
launch — and the process exits with code 1. -/
theorem bad_snapshot_fails_before_any_action (concurrency : Nat)
    (snapshot : String) (ts : Nat) (create : SpawnResult)
    (joins : List JoinResult) (h : '@' ∉ snapshot.data) :
    gocrash concurrency snapshot ts create joins =
      ([], .error "bad syntax for snapshot name (missing '@')") ∧
    main_exit_code (gocrash concurrency snapshot ts create joins).2 = 1 := by
  have hs : split_once snapshot '@' = none := by
    unfold split_once
    rw [(splitOnceList_eq_none_iff '@' snapshot.data).mpr h]
    rfl
  constructor
  · simp [gocrash, hs]
  · simp [gocrash, hs, main_exit_code]

theorem bad_snapshot_fails_before_any_action_witness :
    gocrash 2 "tank/go" 5 (.ran ⟨.code 0, "", ""⟩) [] =
      ([], .error "bad syntax for snapshot name (missing '@')") ∧
    main_exit_code (gocrash 2 "tank/go" 5 (.ran ⟨.code 0, "", ""⟩) []).2 = 1 :=
  bad_snapshot_fails_before_any_action 2 "tank/go" 5 (.ran ⟨.code 0, "", ""⟩) []
    (by decide)

/-- C6: `run_command` returns the captured stdout text exactly when the
process ran and exited with code 0; when the process ran and terminated any
other way, the error string is the command label followed by the termination
reason (numeric exit code, or signal number), with the captured stderr and
stdout texts each appended only when non-empty. -/
theorem run_command_spec (prog : String) (args : List String) (r : SpawnResult) :
    ((∃ s, run_command prog args r = .ok s) ↔
      ∃ o, r = .ran o ∧ o.status = .code 0) ∧
    (∀ o, r = .ran o → o.status = .code 0 →
      run_command prog args r = .ok o.stdout) ∧
    (∀ o, r = .ran o → o.status ≠ .code 0 →
      ∃ e, run_command prog args r = .error e ∧
        e = "command failed: " ++ command_label prog args ++ ": " ++
              result_summary o.status ++
            (if o.stderr.length > 0 then "\nstderr:\n" ++ o.stderr ++ "\n" else "") ++
            (if o.stdout.length > 0 then "\nstdout:\n" ++ o.stdout ++ "\n" else "") ∧
        strContains e (command_label prog args) ∧
        strContains e (result_summary o.status) ∧
        (o.stderr.length > 0 → strContains e o.stderr) ∧
        (o.stdout.length > 0 → strContains e o.stdout)) := by
  refine ⟨?_, ?_, ?_⟩
  · constructor
    · rintro ⟨s, hs⟩
      cases r with
      | spawnError m => simp [run_command] at hs
      | ran o =>
        refine ⟨o, rfl, ?_⟩
        rw [← status_success_true_iff]
        by_contra hfail
        have : status_success o.status = false := by
          cases h : status_success o.status
          · rfl
          · exact absurd h hfail
        simp [run_command, this] at hs
    · rintro ⟨o, rfl, h0⟩
      exact ⟨o.stdout, run_command_ok_of_code_zero prog args o h0⟩
  · rintro o rfl h0
    exact run_command_ok_of_code_zero prog args o h0
  · rintro o rfl hne
    have hs : status_success o.status = false := by
      cases h : status_success o.status
      · rfl
      · exact absurd ((status_success_true_iff o.status).mp h) hne
    have key : run_command prog args (.ran o) = .error
        ((if o.stdout.length > 0 then
            (if o.stderr.length > 0 then
              ("command failed: " ++ command_label prog args ++ ": " ++
                result_summary o.status) ++ "\nstderr:\n" ++ o.stderr ++ "\n"
             else
              "command failed: " ++ command_label prog args ++ ": " ++
                result_summary o.status) ++ "\nstdout:\n" ++ o.stdout ++ "\n"
          else
            (if o.stderr.length > 0 then
              ("command failed: " ++ command_label prog args ++ ": " ++
                result_summary o.status) ++ "\nstderr:\n" ++ o.stderr ++ "\n"
             else
              "command failed: " ++ command_label prog args ++ ": " ++
                result_summary o.status))) := by
      simp only [run_command, hs, Bool.false_eq_true, if_false]
    refine ⟨"command failed: " ++ command_label prog args ++ ": " ++
        result_summary o.status ++
        (if o.stderr.length > 0 then "\nstderr:\n" ++ o.stderr ++ "\n" else "") ++
        (if o.stdout.length > 0 then "\nstdout:\n" ++ o.stdout ++ "\n" else ""),
      ?_, rfl, ?_, ?_, ?_, ?_⟩
    · rw [key]
      congr 1
      by_cases h1 : o.stderr.length > 0 <;> by_cases h2 : o.stdout.length > 0 <;>
        simp only [h1, h2, if_true, if_false, ite_true, ite_false,
          String.append_assoc, String.append_empty]
    · apply strContains_append_right
      apply strContains_append_right
      apply strContains_append_right
      apply strContains_append_right
      exact strContains_suffix "command failed: " (command_label prog args)
    · apply strContains_append_right
      apply strContains_append_right
      exact strContains_suffix _ (result_summary o.status)
    · intro h1
      rw [if_pos h1]
      apply strContains_append_right
      apply strContains_append_left
      apply strContains_append_right
      exact strContains_suffix "\nstderr:\n" o.stderr
    · intro h2
      rw [if_pos h2]
      apply strContains_append_left
      apply strContains_append_right
      exact strContains_suffix "\nstdout:\n" o.stdout

theorem run_command_spec_witness :
    ∃ e, run_command "pfexec" ["zfs", "clone"] (.ran ⟨.code 2, "out text", "err text"⟩) =
        .error e ∧
      e = "command failed: " ++ command_label "pfexec" ["zfs", "clone"] ++ ": " ++
            result_summary (.code 2) ++
          (if ("err text" : String).length > 0 then "\nstderr:\n" ++ "err text" ++ "\n" else "") ++
          (if ("out text" : String).length > 0 then "\nstdout:\n" ++ "out text" ++ "\n" else "") ∧
      strContains e (command_label "pfexec" ["zfs", "clone"]) ∧
      strContains e (result_summary (.code 2)) ∧
      (("err text" : String).length > 0 → strContains e "err text") ∧
      (("out text" : String).length > 0 → strContains e "out text") :=
  (run_command_spec "pfexec" ["zfs", "clone"]
      (.ran ⟨.code 2, "out text", "err text"⟩)).2.2
    ⟨.code 2, "out text", "err text"⟩ rfl (by decide)

/-- C2: in an attempt whose clone, mountpoint lookup and sink creations
succeed, a failing test command makes the attempt return that error without
ever issuing a `zfs destroy` — the volume is retained whatever
`keep_success` says — while after a successful test command the
`zfs destroy` of the attempt's volume is issued iff `keep_success` is
false. -/
theorem failed_attempt_retained_success_destroyed_iff (keep_success : Bool)
    (gd src : String) (w r : Nat) (env : RunOneEnv) (oc ol : Output)
    (hclone : env.clone = .ran oc) (hc0 : oc.status = .code 0)
    (hlist : env.list = .ran ol) (hl0 : ol.status = .code 0)
    (hso : env.open_stdout = .ok ()) (hse : env.open_stderr = .ok ()) :
    (∀ e, run_command "bash" ["./all.bash"] env.test = .error e →
        Action.exec "pfexec" ["zfs", "destroy", test_run_dataset gd w r] ∉
          (gocrash_worker_run_one keep_success gd src w r env).1 ∧
        (gocrash_worker_run_one keep_success gd src w r env).2 = .error e) ∧
    (∀ s, run_command "bash" ["./all.bash"] env.test = .ok s →
        (Action.exec "pfexec" ["zfs", "destroy", test_run_dataset gd w r] ∈
            (gocrash_worker_run_one keep_success gd src w r env).1 ↔
          keep_success = false)) := by
  constructor
  · intro e he
    simp only [gocrash_worker_run_one, hclone,
      run_command_ok_of_code_zero _ _ oc hc0, hlist,
      run_command_ok_of_code_zero _ _ ol hl0, hso, hse, he]
    constructor
    · simp
    · trivial
  · intro s hs
    simp only [gocrash_worker_run_one, hclone,
      run_command_ok_of_code_zero _ _ oc hc0, hlist,
      run_command_ok_of_code_zero _ _ ol hl0, hso, hse, hs]
    cases keep_success with
    | false =>
      simp only [Bool.false_eq_true, if_false]
      constructor
      · intro _; trivial
      · intro _
        cases hd : run_command "pfexec" ["zfs", "destroy", test_run_dataset gd w r]
            env.destroy <;> simp [hd]
    | true =>
      simp only [if_true]
      constructor
      · intro hmem
        exfalso
        simp at hmem
      · intro hft
        exact absurd hft (by simp)

theorem failed_attempt_retained_success_destroyed_iff_witness :
    (Action.exec "pfexec" ["zfs", "destroy", test_run_dataset "tank/gocrash-0" 0 0] ∈
        (gocrash_worker_run_one false "tank/gocrash-0" "tank/go@base" 0 0 env_all_ok).1 ↔
      false = false) :=
  (failed_attempt_retained_success_destroyed_iff false "tank/gocrash-0" "tank/go@base"
      0 0 env_all_ok ⟨.code 0, "", ""⟩ ⟨.code 0, "/mnt/test\n", ""⟩
      rfl rfl rfl rfl rfl rfl).2 "" rfl

/-- C3 (counterexample): with the first two attempts succeeding and the test
command exiting with code 1 on the worker's third attempt (run index 2), the
worker's result has `ntries = 2`, not `ntries = 3`: the failing attempt is
reported before the counter is incremented (src/main.rs:171-176). -/
theorem third_attempt_fail_ntries_counterexample :
    gocrash_worker none run_one_third_fails 3 0 =
      some ⟨2, .error
        "command failed: \"bash\" \"./all.bash\": exited with code 1"⟩ ∧
    Option.map WorkerResult.ntries (gocrash_worker none run_one_third_fails 3 0) ≠
      some 3 := by
  constructor
  · decide
  · decide

/-- C3 (amended): if the test command exits with code 1 on a worker's third
attempt (the first two succeeding), the worker's result reports `ntries = 2`
— the two completed attempts; the failing attempt is not counted — and its
terminal error reports the numeric exit code 1, not a terminating signal. -/
theorem third_attempt_fail_reports_two_and_exit_code_one :
    gocrash_worker none run_one_third_fails 3 0 =
      some ⟨2, .error
        "command failed: \"bash\" \"./all.bash\": exited with code 1"⟩ ∧
    strContains "command failed: \"bash\" \"./all.bash\": exited with code 1"
      (result_summary (.code 1)) := by
  constructor
  · decide
  · exact ⟨"command failed: \"bash\" \"./all.bash\": ", "", by decide⟩

/-- A worker that has returned takes no further step: every pool step leaves
it returned, and no step can begin an attempt for it. -/
lemma step_preserves_done {ι : Type} [DecidableEq ι] {stop_after : Option Nat}
    {run_one : ι → Nat → Except String Unit} {s s₁ : SysState ι} {l : Label ι}
    (h : Step stop_after run_one s l s₁) (i : ι) (rr : WorkerResult)
    (hd : s.workers i = .done rr) :
    s₁.workers i = .done rr ∧ l ≠ .beginAttempt i := by
  cases h with
  | @observeStop j t hw hs =>
    refine ⟨?_, fun hlab => Label.noConfusion hlab⟩
    show Function.update s.workers j _ i = _
    rcases eq_or_ne i j with rfl | hij
    · rw [hd] at hw; exact WStatus.noConfusion hw
    · rw [Function.update_noteq hij]; exact hd
  | @beginAttempt j t hw hs =>
    constructor
    · show Function.update s.workers j _ i = _
      rcases eq_or_ne i j with rfl | hij
      · rw [hd] at hw; exact WStatus.noConfusion hw
      · rw [Function.update_noteq hij]; exact hd
    · intro hlab
      have hji : j = i := Label.beginAttempt.inj hlab
      subst hji
      rw [hd] at hw; exact WStatus.noConfusion hw
  | @finishOk j t hw hr =>
    refine ⟨?_, fun hlab => Label.noConfusion hlab⟩
    show Function.update s.workers j _ i = _
    rcases eq_or_ne i j with rfl | hij
    · rw [hd] at hw; exact WStatus.noConfusion hw
    · rw [Function.update_noteq hij]; exact hd
  | @finishErr j t e hw hr =>
    refine ⟨?_, fun hlab => Label.noConfusion hlab⟩
    show Function.update s.workers j _ i = _
    rcases eq_or_ne i j with rfl | hij
    · rw [hd] at hw; exact WStatus.noConfusion hw
    · rw [Function.update_noteq hij]; exact hd

/-- A trace over a list split extends to a trace of the tail from some
intermediate state. -/
lemma trace_append_tail {ι : Type} [DecidableEq ι] {stop_after : Option Nat}
    {run_one : ι → Nat → Except String Unit} :
    ∀ {tr₁ tr₂ : List (Label ι × SysState ι)} {s : SysState ι},
      Trace stop_after run_one s (tr₁ ++ tr₂) →
      ∃ s', Trace stop_after run_one s' tr₂ := by
  intro tr₁
  induction tr₁ with
  | nil => intro tr₂ s h; exact ⟨s, h⟩
  | cons q tr ih =>
    intro tr₂ s h
    cases h with
    | cons hstep htr => exact ih htr

/-- Along any trace from a state in which worker `i` has returned, no step
begins an attempt for worker `i`. -/
lemma trace_no_attempt_of_done {ι : Type} [DecidableEq ι] {stop_after : Option Nat}
    {run_one : ι → Nat → Except String Unit} :
    ∀ {tr : List (Label ι × SysState ι)} {s : SysState ι},
      Trace stop_after run_one s tr → ∀ (i : ι) (rr : WorkerResult),
      s.workers i = .done rr → ∀ p ∈ tr, p.1 ≠ Label.beginAttempt i := by
  intro tr
  induction tr with
  | nil => intro s _ i rr _ p hp; cases hp
  | cons q tr ih =>
    intro s htr i rr hd p hp
    cases htr with
    | cons hstep htr2 =>
      obtain ⟨hd', hne⟩ := step_preserves_done hstep i rr hd
      rcases List.mem_cons.mp hp with rfl | hp2
      · exact hne
      · exact ih htr2 i rr hd' p hp2

/-- C1: in the worker-pool transition system, the shared stop flag is
monotonic — every step leaves it unchanged or moves it from false to true,
never from true to false — and once a worker observes the flag true at the
top of its loop it returns its `WorkerResult` (success with its current
count) and no later step of any trace begins another attempt for it. -/
theorem stop_flag_monotone_and_halts_worker {ι : Type} [DecidableEq ι]
    (stop_after : Option Nat) (run_one : ι → Nat → Except String Unit) :
    (∀ (s s₁ : SysState ι) (l : Label ι), Step stop_after run_one s l s₁ →
      s₁.stopping = s.stopping ∨ (s.stopping = false ∧ s₁.stopping = true)) ∧
    (∀ (s s₁ : SysState ι) (i : ι) (tr₁ tr₂ : List (Label ι × SysState ι)),
      Trace stop_after run_one s (tr₁ ++ (Label.observeStop i, s₁) :: tr₂) →
      (∃ t, s₁.workers i = .done ⟨t, .ok ()⟩) ∧
      ∀ p ∈ tr₂, p.1 ≠ Label.beginAttempt i) := by
  constructor
  · intro s s₁ l h
    cases h with
    | observeStop hw hs => exact Or.inl rfl
    | beginAttempt hw hs => exact Or.inl rfl
    | finishOk hw hr => exact Or.inl rfl
    | finishErr hw hr =>
      cases hb : s.stopping with
      | false => exact Or.inr ⟨rfl, rfl⟩
      | true => exact Or.inl rfl
  · intro s s₁ i tr₁ tr₂ htr
    obtain ⟨s', htr'⟩ := trace_append_tail htr
    cases htr' with
    | cons hstep htr2 =>
      cases hstep with
      | observeStop hw hs =>
        rename_i t
        have hdone : (Function.update (SysState.workers s') i
            (WStatus.done ⟨t, .ok ()⟩)) i = WStatus.done ⟨t, .ok ()⟩ :=
          Function.update_same i _ _
        exact ⟨⟨t, hdone⟩, trace_no_attempt_of_done htr2 i ⟨t, .ok ()⟩ hdone⟩

theorem stop_flag_monotone_and_halts_worker_witness :
    (∃ t, (⟨true, Function.update (fun _ : Nat => WStatus.atTop 0) 0
        (WStatus.done ⟨0, Except.ok ()⟩)⟩ : SysState Nat).workers 0 =
        WStatus.done ⟨t, Except.ok ()⟩) ∧
    ∀ p ∈ ([] : List (Label Nat × SysState Nat)), p.1 ≠ Label.beginAttempt 0 :=
  (stop_flag_monotone_and_halts_worker none (fun _ _ => Except.ok ())).2
    ⟨true, fun _ => WStatus.atTop 0⟩
    ⟨true, Function.update (fun _ : Nat => WStatus.atTop 0) 0
      (WStatus.done ⟨0, Except.ok ()⟩)⟩
    0 [] []
    (Trace.cons (Step.observeStop rfl rfl) Trace.nil)

/-- C10: a step in which a worker's attempt succeeds — including the case
where it thereby reaches the configured run-count limit and returns — leaves
the shared stop flag unchanged and every other worker's state unchanged; the
flag changes only on a step in which some worker's attempt returns an error,
and then only from false to true. -/
theorem limit_stop_never_sets_flag {ι : Type} [DecidableEq ι]
    (stop_after : Option Nat) (run_one : ι → Nat → Except String Unit) :
    ∀ (s s₁ : SysState ι) (l : Label ι), Step stop_after run_one s l s₁ →
      ((∀ i, l = .finishOk i → s₁.stopping = s.stopping ∧
          ∀ j, j ≠ i → s₁.workers j = s.workers j) ∧
       (s₁.stopping ≠ s.stopping →
          ∃ i e, l = .finishErr i e ∧ s.stopping = false ∧ s₁.stopping = true)) := by
  intro s s₁ l h
  cases h with
  | observeStop hw hs =>
    exact ⟨fun i hlab => Label.noConfusion hlab, fun hne => absurd rfl hne⟩
  | beginAttempt hw hs =>
    exact ⟨fun i hlab => Label.noConfusion hlab, fun hne => absurd rfl hne⟩
  | @finishOk j t hw hr =>
    constructor
    · intro i hlab
      have hji : j = i := Label.finishOk.inj hlab
      subst hji
      refine ⟨rfl, ?_⟩
      intro jj hne
      show Function.update s.workers j _ jj = _
      rw [Function.update_noteq hne]
    · intro hne; exact absurd rfl hne
  | @finishErr j t e hw hr =>
    constructor
    · intro i hlab; exact Label.noConfusion hlab
    · intro hne
      cases hb : s.stopping with
      | false => exact ⟨j, e, rfl, rfl, rfl⟩
      | true =>
        exfalso
        apply hne
        show true = s.stopping
        rw [hb]

theorem limit_stop_never_sets_flag_witness :
    (⟨false, Function.update (fun _ : Nat => WStatus.inAttempt 0) 0
        (WStatus.done ⟨1, Except.ok ()⟩)⟩ : SysState Nat).stopping =
      (⟨false, fun _ : Nat => WStatus.inAttempt 0⟩ : SysState Nat).stopping ∧
    ∀ j : Nat, j ≠ 0 →
      (⟨false, Function.update (fun _ : Nat => WStatus.inAttempt 0) 0
          (WStatus.done ⟨1, Except.ok ()⟩)⟩ : SysState Nat).workers j =
        (⟨false, fun _ : Nat => WStatus.inAttempt 0⟩ : SysState Nat).workers j :=
  ((limit_stop_never_sets_flag (some 1) (fun _ _ => Except.ok ())
      ⟨false, fun _ => WStatus.inAttempt 0⟩
      ⟨false, Function.update (fun _ : Nat => WStatus.inAttempt 0) 0
        (WStatus.done ⟨1, Except.ok ()⟩)⟩
      (Label.finishOk 0)
      (@Step.finishOk Nat _ (some 1) (fun _ _ => Except.ok ())
        ⟨false, fun _ => WStatus.inAttempt 0⟩ 0 0 rfl rfl)).1) 0 rfl

/-! ### Decimal representations are injective and digit-only -/

/-- The digit accumulator of `Nat.toDigitsCore` is simply appended. -/
lemma toDigitsCore_append (b : Nat) : ∀ (fuel n : Nat) (ds : List Char),
    Nat.toDigitsCore b fuel n ds = Nat.toDigitsCore b fuel n [] ++ ds := by
  intro fuel
  induction fuel with
  | zero => intro n ds; simp [Nat.toDigitsCore]
  | succ fuel ih =>
    intro n ds
    by_cases h : n / b = 0
    · simp [Nat.toDigitsCore, h]
    · simp only [Nat.toDigitsCore, h, if_neg, if_false]
      rw [ih (n / b) (Nat.digitChar (n % b) :: ds),
        ih (n / b) [Nat.digitChar (n % b)]]
      simp [List.append_assoc]

/-- `Nat.toDigitsCore` ignores how much fuel it gets beyond `n`. -/
lemma toDigitsCore_fuel (b : Nat) (hb : 2 ≤ b) : ∀ (n fuel₁ fuel₂ : Nat),
    n < fuel₁ → n < fuel₂ →
    Nat.toDigitsCore b fuel₁ n [] = Nat.toDigitsCore b fuel₂ n [] := by
  intro n
  induction n using Nat.strong_induction_on with
  | _ n ih =>
    intro fuel₁ fuel₂ h1 h2
    match fuel₁, h1 with
    | f₁ + 1, h1b =>
      match fuel₂, h2 with
      | f₂ + 1, h2b =>
        by_cases h : n / b = 0
        · simp [Nat.toDigitsCore, h]
        · simp only [Nat.toDigitsCore, h, if_neg, if_false]
          rw [toDigitsCore_append b f₁ (n / b) [Nat.digitChar (n % b)],
            toDigitsCore_append b f₂ (n / b) [Nat.digitChar (n % b)]]
          have hn : 0 < n := by
            rcases Nat.eq_zero_or_pos n with rfl | hp
            · exact absurd (Nat.zero_div b) h
            · exact hp
          have hlt : n / b < n := Nat.div_lt_self hn (by omega)
          rw [ih (n / b) hlt f₁ f₂ (by omega) (by omega)]

/-- `Nat.digitChar` of a digit reads back as that digit. -/
lemma digitChar_toNat (n : Nat) (h : n < 10) :
    (Nat.digitChar n).toNat - Char.toNat '0' = n := by
  interval_cases n <;> decide

/-- `Nat.digitChar` of a digit is a digit character. -/
lemma digitChar_isDigit (n : Nat) (h : n < 10) :
    (Nat.digitChar n).isDigit = true := by
  interval_cases n <;> decide

/-- Reading the decimal digits of `n` back yields `n`. -/
lemma decodeDigits_toDigits : ∀ (n : Nat),
    decodeDigits (Nat.toDigits 10 n) = n := by
  intro n
  induction n using Nat.strong_induction_on with
  | _ n ih =>
    show decodeDigits (Nat.toDigitsCore 10 (n + 1) n []) = n
    by_cases h : n / 10 = 0
    · simp only [Nat.toDigitsCore, h, if_pos]
      have hv := digitChar_toNat (n % 10) (Nat.mod_lt n (by omega))
      simp only [decodeDigits, List.foldl_cons, List.foldl_nil]
      omega
    · simp only [Nat.toDigitsCore, h, if_neg, if_false]
      rw [toDigitsCore_append 10 n (n / 10) [Nat.digitChar (n % 10)]]
      have hlt : n / 10 < n := Nat.div_lt_self (by omega) (by omega)
      rw [toDigitsCore_fuel 10 (by omega) (n / 10) n (n / 10 + 1) (by omega) (by omega)]
      have hback : Nat.toDigits 10 (n / 10) = Nat.toDigitsCore 10 (n / 10 + 1) (n / 10) [] := rfl
      rw [← hback]
      have hdec : decodeDigits (Nat.toDigits 10 (n / 10) ++ [Nat.digitChar (n % 10)]) =
          decodeDigits (Nat.toDigits 10 (n / 10)) * 10 +
            ((Nat.digitChar (n % 10)).toNat - Char.toNat '0') := by
        simp [decodeDigits, List.foldl_append]
      rw [hdec, ih (n / 10) hlt, digitChar_toNat (n % 10) (Nat.mod_lt n (by omega))]
      omega

/-- Distinct naturals have distinct decimal digit lists. -/
lemma toDigits_ten_inj (a b : Nat) (h : Nat.toDigits 10 a = Nat.toDigits 10 b) :
    a = b := by
  have ha := decodeDigits_toDigits a
  rw [h, decodeDigits_toDigits b] at ha
  omega

/-- `Nat.repr` is injective. -/
lemma nat_repr_inj (a b : Nat) (h : Nat.repr a = Nat.repr b) : a = b :=
  toDigits_ten_inj a b (congrArg String.data h)

/-- Every character `Nat.toDigitsCore` emits beyond its accumulator is a
digit. -/
lemma toDigitsCore_digits : ∀ (fuel n : Nat) (ds : List Char),
    (∀ c ∈ ds, c.isDigit = true) →
    ∀ c ∈ Nat.toDigitsCore 10 fuel n ds, c.isDigit = true := by
  intro fuel
  induction fuel with
  | zero => intro n ds hds; simpa [Nat.toDigitsCore] using hds
  | succ fuel ih =>
    intro n ds hds c hc
    by_cases h : n / 10 = 0
    · simp only [Nat.toDigitsCore, h, if_pos] at hc
      rcases List.mem_cons.mp hc with rfl | hc2
      · exact digitChar_isDigit (n % 10) (Nat.mod_lt n (by omega))
      · exact hds c hc2
    · simp only [Nat.toDigitsCore, h, if_neg, if_false] at hc
      refine ih (n / 10) (Nat.digitChar (n % 10) :: ds) ?_ c hc
      intro c2 hc2
      rcases List.mem_cons.mp hc2 with rfl | hc3
      · exact digitChar_isDigit (n % 10) (Nat.mod_lt n (by omega))
      · exact hds c2 hc3

/-- Every character of `Nat.repr n` is a digit. -/
lemma repr_all_digits (n : Nat) : ∀ c ∈ (Nat.repr n).data, c.isDigit = true :=
  toDigitsCore_digits (n + 1) n [] (by simp)

/-- Two digit strings followed by a dash-separated tail can be matched up:
the digits before the first dash agree, and so do the tails. -/
lemma digits_dash_split : ∀ (a : List Char), (∀ x ∈ a, x.isDigit = true) →
    ∀ (c : List Char), (∀ x ∈ c, x.isDigit = true) →
    ∀ (u v : List Char), a ++ '-' :: u = c ++ '-' :: v → a = c ∧ u = v := by
  intro a
  induction a with
  | nil =>
    intro _ c hc u v h
    cases c with
    | nil =>
      simp only [List.nil_append] at h
      exact ⟨rfl, List.cons.inj h |>.2⟩
    | cons x cs =>
      simp only [List.nil_append, List.cons_append] at h
      have h1 : '-' = x := (List.cons.inj h).1
      have hx := hc x (by simp)
      rw [← h1] at hx
      exact absurd hx (by decide)
  | cons y ys ih =>
    intro ha c hc u v h
    cases c with
    | nil =>
      simp only [List.cons_append, List.nil_append] at h
      have h1 : y = '-' := (List.cons.inj h).1
      have hy := ha y (by simp)
      rw [h1] at hy
      exact absurd hy (by decide)
    | cons x cs =>
      simp only [List.cons_append] at h
      have h1 : y = x := (List.cons.inj h).1
      have h2 := (List.cons.inj h).2
      subst h1
      obtain ⟨hac, huv⟩ :=
        ih (fun z hz => ha z (by simp [hz])) cs (fun z hz => hc z (by simp [hz]))
          u v h2
      exact ⟨by rw [hac], huv⟩

/-- The per-attempt key determines the worker index and run index. -/
lemma test_run_key_inj (w₁ r₁ w₂ r₂ : Nat)
    (h : (test_run_key w₁ r₁).data = (test_run_key w₂ r₂).data) :
    w₁ = w₂ ∧ r₁ = r₂ := by
  simp only [test_run_key, String.data_append, List.append_assoc] at h
  have h2 := List.append_cancel_left h
  simp only [List.cons_append, List.nil_append] at h2
  obtain ⟨hw, hrest⟩ := digits_dash_split (Nat.repr w₁).data (repr_all_digits w₁)
    (Nat.repr w₂).data (repr_all_digits w₂) _ _ h2
  simp only [List.cons.injEq, true_and] at hrest
  constructor
  · exact nat_repr_inj w₁ w₂ (by apply String.ext; exact hw)
  · exact nat_repr_inj r₁ r₂ (by apply String.ext; exact hrest)

/-- C7: per-attempt dataset names within one session are deterministic and
collision-free — two `(workerIndex, attemptIndex)` pairs yield the same name
iff they are the same pair. -/
theorem test_run_dataset_collision_free (gd : String) (w₁ r₁ w₂ r₂ : Nat) :
    test_run_dataset gd w₁ r₁ = test_run_dataset gd w₂ r₂ ↔
      w₁ = w₂ ∧ r₁ = r₂ := by
  constructor
  · intro h
    have hdata := congrArg String.data h
    simp only [test_run_dataset, String.data_append, List.append_assoc] at hdata
    have h2 := List.append_cancel_left hdata
    have h3 := List.append_cancel_left h2
    exact test_run_key_inj w₁ r₁ w₂ r₂ h3
  · rintro ⟨rfl, rfl⟩
    rfl

theorem test_run_dataset_collision_free_witness :
    (test_run_dataset "tank/gocrash-0" 0 1 = test_run_dataset "tank/gocrash-0" 1 0) ↔
      ((0 : Nat) = 1 ∧ (1 : Nat) = 0) :=
  test_run_dataset_collision_free "tank/gocrash-0" 0 1 1 0

end Gocrash
